import Mathlib

/-!
Verification of the batch-scoring style-transfer pipeline (AML notebooks).

The repository configures a three-step video style-transfer pipeline
(preprocess video, mpi style transfer, postprocess video), publishes it
behind an invocation endpoint, and deploys a trigger that re-invokes the
published pipeline when a new .mp4 object appears in the watched storage
container.  The notebooks under src/ declare the concrete configuration
(node counts, allow_reuse flags, step inputs and outputs, the .mp4 filter,
step-id-keyed downloads); the execution engine itself (sharding, fail-fast
MPI semantics, reuse decisions, the run state machine, the gateway) is not
shipped under src/, so those parts are modelled from the specification, as
marked on each definition.
-/

/-! ## Distributed step: contiguous near-equal sharding (C1) -/

/-- Modelled from the spec: the distributed style-transfer step
(scripts/style_transfer_mpi.py, not under src/) splits the input
collection of M items into rank_count contiguous near-equal shards by
index; `shardStart M R i` is the first index of the shard of rank `i`. -/
def shardStart (M R i : Nat) : Nat := i * M / R

/-- Modelled from the spec: the sublist of the input collection processed
by rank `i` out of `R` ranks. -/
def rankShard (xs : List α) (R i : Nat) : List α :=
  (xs.drop (shardStart xs.length R i)).take
    (shardStart xs.length R (i + 1) - shardStart xs.length R i)

/-- Modelled from the spec: the per-rank shards, one per rank, in rank
order; rank `i` writes its results under its own disjoint output slot. -/
def mpiPartition (xs : List α) (R : Nat) : List (List α) :=
  (List.range R).map (rankShard xs R)

lemma shardStart_monotone (M R : Nat) : Monotone (shardStart M R) := by
  apply monotone_nat_of_le_succ
  intro i
  exact Nat.div_le_div_right (Nat.mul_le_mul_right M (Nat.le_succ i))

lemma shardStart_zero (M R : Nat) : shardStart M R 0 = 0 := by
  simp [shardStart]

lemma shardStart_last (M R : Nat) (hR : 0 < R) : shardStart M R R = M := by
  simp [shardStart, Nat.mul_div_cancel_left M hR]

/-- Concatenating consecutive take/drop slices cut at a monotone boundary
function reproduces one big slice. -/
lemma join_slices (xs : List α) (g : Nat → Nat) (hg : Monotone g) (n : Nat) :
    ((List.range n).map (fun i => (xs.drop (g i)).take (g (i + 1) - g i))).flatten
      = (xs.drop (g 0)).take (g n - g 0) := by
  induction n with
  | zero => simp
  | succ n ih =>
      rw [List.range_succ, List.map_append, List.flatten_append, ih]
      simp only [List.map_cons, List.map_nil, List.flatten_cons, List.flatten_nil,
        List.append_nil]
      have h0n : g 0 ≤ g n := hg (Nat.zero_le n)
      have hnn : g n ≤ g (n + 1) := hg (Nat.le_succ n)
      have hsum : g (n + 1) - g 0 = (g n - g 0) + (g (n + 1) - g n) := by omega
      rw [hsum, List.take_add]
      congr 1
      rw [List.drop_drop]
      congr 2
      omega

/-- C1: splitting an input collection into R contiguous near-equal shards
by index and letting each rank process exactly its shard yields per-rank
shards whose concatenation is exactly the original collection: every item
appears, none is duplicated, regardless of where the boundaries fall, and
there is exactly one shard per rank. -/
theorem mpiPartition_exact (xs : List α) (R : Nat) (hR : 0 < R)
    (_hRM : R ≤ xs.length) :
    (mpiPartition xs R).flatten = xs ∧ (mpiPartition xs R).length = R := by
  constructor
  · show ((List.range R).map (fun i =>
        (xs.drop (shardStart xs.length R i)).take
          (shardStart xs.length R (i + 1) - shardStart xs.length R i))).flatten
        = xs
    rw [join_slices xs (shardStart xs.length R) (shardStart_monotone xs.length R) R,
      shardStart_zero, shardStart_last xs.length R hR]
    simp
  · simp [mpiPartition]

/-- Witness: C1 at a concrete collection of 5 items over 2 ranks. -/
theorem mpiPartition_exact_witness :
    0 < 2 ∧ 2 ≤ ([10, 11, 12, 13, 14] : List Nat).length ∧
      (mpiPartition ([10, 11, 12, 13, 14] : List Nat) 2).flatten
        = [10, 11, 12, 13, 14] :=
  ⟨by decide, by decide,
    (mpiPartition_exact ([10, 11, 12, 13, 14] : List Nat) 2 (by decide)
      (by decide)).1⟩

/-! ## Run and step statuses -/

/-- The run status vocabulary reported by the run-status query
(wait_for_completion in the notebook shows NotStarted, Running, Finished;
the spec adds Failed and Canceled). -/
inductive RunStatus where
  | NotStarted
  | Running
  | Finished
  | Failed
  | Canceled
deriving DecidableEq, Repr

/-- Outcome of one MPI rank of the distributed step: some shard output, or
none when the rank's process exited nonzero. -/
def RankOutcome (α : Type) : Type := Option (List α)

/-! ## Distributed step: fail-fast assembly (C2) -/

/-- Modelled from the spec: assembling the per-rank output shards of the
distributed step; the assembled output exists only when every rank
produced its shard, and is the positional concatenation of the shards.
The MPI launcher itself is not under src/. -/
def assembleRankOutputs : List (Option (List α)) → Option (List α)
  | [] => some []
  | none :: _ => none
  | some xs :: rs => (assembleRankOutputs rs).map (fun ys => xs ++ ys)

/-- Modelled from the spec: the overall result of the distributed step is
Failed unless every rank succeeded, in which case it is Finished. -/
def distributedStepStatus (ranks : List (Option (List α))) : RunStatus :=
  match assembleRankOutputs ranks with
  | some _ => RunStatus.Finished
  | none => RunStatus.Failed

/-- C2: in every execution of the distributed step in which at least one
rank fails, the overall result is Failed and no partial or assembled
output is exposed: the results of the ranks that did succeed are never
accepted on their own. -/
theorem distributedStep_failFast (ranks : List (Option (List α)))
    (h : none ∈ ranks) :
    distributedStepStatus ranks = RunStatus.Failed ∧
      assembleRankOutputs ranks = none := by
  have hnone : assembleRankOutputs ranks = none := by
    induction ranks with
    | nil => cases h
    | cons r rs ih =>
        cases h with
        | head => simp [assembleRankOutputs]
        | tail _ hmem =>
            have := ih hmem
            cases r with
            | none => simp [assembleRankOutputs]
            | some xs => simp [assembleRankOutputs, this]
  exact ⟨by simp [distributedStepStatus, hnone], hnone⟩

/-- Witness: C2 where the middle of three ranks fails and the other two
succeeded. -/
theorem distributedStep_failFast_witness :
    none ∈ [some [0, 1], none, some [2]] ∧
      distributedStepStatus [some ([0, 1] : List Nat), none, some [2]]
        = RunStatus.Failed ∧
      assembleRankOutputs [some ([0, 1] : List Nat), none, some [2]] = none :=
  ⟨by decide,
    distributedStep_failFast [some ([0, 1] : List Nat), none, some [2]]
      (by decide)⟩

/-! ## Pool sizing and the distributed-step precondition (C3) -/

/-- Compute provisioning configuration, as built by
AmlCompute.provisioning_configuration in the notebook. -/
structure ProvisioningConfig where
  vm_size : String
  min_nodes : Nat
  max_nodes : Nat
deriving DecidableEq, Repr

/-- style_transfer_node_count = 4 in the notebook. -/
def style_transfer_node_count : Nat := 4

/-- ffmpeg_node_count = 1 in the notebook. -/
def ffmpeg_node_count : Nat := 1

/-- The style-cluster provisioning call in the notebook: vm_size from
vm_dict NCSv3, min_nodes = max_nodes = style_transfer_node_count. -/
def gpu_provisioning_config : ProvisioningConfig :=
  { vm_size := "STANDARD_NC6s_v3"
    min_nodes := style_transfer_node_count
    max_nodes := style_transfer_node_count }

/-- node_count declared on the MpiStep in the notebook. -/
def mpi_node_count : Nat := 4

/-- Outcome of submitting the distributed step to its pool. -/
inductive SubmitOutcome where
  | Started
  | InsufficientWorkers
deriving DecidableEq, Repr

/-- Modelled from the spec: a pool that reports fewer live workers than
rank_count causes the distributed step to fail with InsufficientWorkers
rather than silently using fewer ranks; with enough live workers the step
starts on exactly rank_count ranks. -/
def submitDistributedStep (liveWorkers rankCount : Nat) : SubmitOutcome :=
  if liveWorkers < rankCount then SubmitOutcome.InsufficientWorkers
  else SubmitOutcome.Started

/-- Modelled from the spec: an InsufficientWorkers submission leaves the
run Failed; a started submission leaves it Running. -/
def runStatusAfterSubmit : SubmitOutcome → RunStatus
  | SubmitOutcome.InsufficientWorkers => RunStatus.Failed
  | SubmitOutcome.Started => RunStatus.Running

/-- C3: the MpiStep declares rank_count equal to the pool's fixed worker
count (the style cluster is created with min_nodes = max_nodes = 4, and
the MpiStep declares node_count = 4); whenever the pool reports fewer
live workers than rank_count the submission fails with
InsufficientWorkers and the run is Failed, and it never silently starts
with fewer ranks. -/
theorem mpiStep_requires_full_pool :
    mpi_node_count = gpu_provisioning_config.min_nodes ∧
      gpu_provisioning_config.min_nodes = gpu_provisioning_config.max_nodes ∧
      gpu_provisioning_config.max_nodes = 4 ∧
      (∀ live : Nat, live < mpi_node_count →
        submitDistributedStep live mpi_node_count
            = SubmitOutcome.InsufficientWorkers ∧
          runStatusAfterSubmit (submitDistributedStep live mpi_node_count)
            = RunStatus.Failed) ∧
      (∀ live : Nat, mpi_node_count ≤ live →
        submitDistributedStep live mpi_node_count = SubmitOutcome.Started) := by
  refine ⟨rfl, rfl, rfl, ?_, ?_⟩
  · intro live hlt
    have hs : submitDistributedStep live mpi_node_count
        = SubmitOutcome.InsufficientWorkers := by
      simp [submitDistributedStep, hlt]
    exact ⟨hs, by rw [hs]; rfl⟩
  · intro live hle
    simp [submitDistributedStep, Nat.not_lt.mpr hle]

/-- Witness: C3 with only 3 live workers out of 4. -/
theorem mpiStep_requires_full_pool_witness :
    (3 : Nat) < mpi_node_count ∧
      submitDistributedStep 3 mpi_node_count
        = SubmitOutcome.InsufficientWorkers ∧
      runStatusAfterSubmit (submitDistributedStep 3 mpi_node_count)
        = RunStatus.Failed :=
  ⟨by decide, (mpiStep_requires_full_pool.2.2.2.1 3 (by decide)).1,
    (mpiStep_requires_full_pool.2.2.2.1 3 (by decide)).2⟩

/-! ## The three declared pipeline steps -/

/-- A pipeline step as declared in the notebook: name, script, named input
and output artifacts, and the allow_reuse flag.  Compute target, runconfig
and command-line arguments are opaque to the scheduling logic modelled
here. -/
structure PipelineStepDef where
  name : String
  script_name : String
  inputs : List String
  outputs : List String
  allow_reuse : Bool
deriving DecidableEq, Repr

/-- The preprocess step declared in the notebook: consumes the video_path
parameter, produces ffmpeg_images and ffmpeg_audio, allow_reuse=False. -/
def preprocess_video_step : PipelineStepDef :=
  { name := "preprocess video"
    script_name := "preprocess_video.py"
    inputs := ["video_path"]
    outputs := ["ffmpeg_images", "ffmpeg_audio"]
    allow_reuse := false }

/-- The MpiStep declared in the notebook: consumes model_dir and
ffmpeg_images, produces processed_images, allow_reuse=False. -/
def distributed_style_transfer_step : PipelineStepDef :=
  { name := "mpi style transfer"
    script_name := "style_transfer_mpi.py"
    inputs := ["model_dir", "ffmpeg_images"]
    outputs := ["processed_images"]
    allow_reuse := false }

/-- The postprocess step declared in the notebook: consumes
processed_images and ffmpeg_audio, produces output_video,
allow_reuse=False. -/
def postprocess_video_step : PipelineStepDef :=
  { name := "postprocess video"
    script_name := "postprocess_video.py"
    inputs := ["processed_images", "ffmpeg_audio"]
    outputs := ["output_video"]
    allow_reuse := false }

/-- The full set of steps declared in the notebook. -/
def pipeline_steps : List PipelineStepDef :=
  [preprocess_video_step, distributed_style_transfer_step,
    postprocess_video_step]

/-- The external (run-time bound or pre-uploaded) inputs of the pipeline:
the video_path pipeline parameter and the model_dir data reference. -/
def external_inputs : List String := ["video_path", "model_dir"]

/-! ## Reuse-skip decisions (C4) -/

/-- The key a reuse-skip decision is made on: the step definition hash and
the hash of the resolved input references. -/
structure StepKey where
  defHash : Nat
  inputHash : Nat
deriving DecidableEq, Repr

/-- Modelled from the spec: a step invocation reuses the prior output
exactly when allow_reuse is set and the (step definition hash, resolved
input hashes) key matches the prior invocation. -/
def stepReusesPrior (allowReuse : Bool) (cur prev : StepKey) : Bool :=
  allowReuse && cur == prev

/-- Modelled from the spec: outcome of invoking a step; returns the output
used by the run and whether the step body was executed (true) or the
prior output reused (false). -/
def stepInvocation (allowReuse : Bool) (cur prev : StepKey)
    (prevOut freshOut : σ) : σ × Bool :=
  if stepReusesPrior allowReuse cur prev then (prevOut, false)
  else (freshOut, true)

/-- C4: with allow_reuse = true and identical step-definition and
resolved-input hashes, a second invocation reuses the prior output without
re-executing; with allow_reuse = false it always re-executes; a change to
either hash always forces re-execution; and all three steps declared in
the notebook set allow_reuse = false. -/
theorem allowReuse_semantics {σ : Type} :
    (∀ (k : StepKey) (p f : σ), stepInvocation true k k p f = (p, false)) ∧
      (∀ (k k' : StepKey) (p f : σ),
        stepInvocation false k k' p f = (f, true)) ∧
      (∀ (b : Bool) (k k' : StepKey) (p f : σ),
        k.defHash ≠ k'.defHash ∨ k.inputHash ≠ k'.inputHash →
          stepInvocation b k k' p f = (f, true)) ∧
      preprocess_video_step.allow_reuse = false ∧
      distributed_style_transfer_step.allow_reuse = false ∧
      postprocess_video_step.allow_reuse = false := by
  refine ⟨?_, ?_, ?_, rfl, rfl, rfl⟩
  · intro k p f
    simp [stepInvocation, stepReusesPrior]
  · intro k k' p f
    simp [stepInvocation, stepReusesPrior]
  · intro b k k' p f hne
    have hkk : k ≠ k' := by
      intro h
      rw [h] at hne
      rcases hne with h1 | h1 <;> exact h1 rfl
    simp [stepInvocation, stepReusesPrior, hkk]

/-- Witness: C4 at concrete keys, including a changed input hash forcing
re-execution. -/
theorem allowReuse_semantics_witness :
    stepInvocation true ⟨5, 7⟩ ⟨5, 7⟩ (0 : Nat) 1 = (0, false) ∧
      stepInvocation false ⟨5, 7⟩ ⟨5, 7⟩ (0 : Nat) 1 = (1, true) ∧
      ((5 : Nat) ≠ 5 ∨ (8 : Nat) ≠ 7) ∧
      stepInvocation true ⟨5, 8⟩ ⟨5, 7⟩ (0 : Nat) 1 = (1, true) :=
  ⟨allowReuse_semantics.1 ⟨5, 7⟩ 0 1,
    allowReuse_semantics.2.1 ⟨5, 7⟩ ⟨5, 7⟩ 0 1,
    Or.inr (by decide),
    allowReuse_semantics.2.2.1 true ⟨5, 8⟩ ⟨5, 7⟩ 0 1 (Or.inr (by decide))⟩

/-! ## Trigger listener (C5) -/

/-- States of the trigger-listener state machine. -/
inductive ListenerState where
  | Idle
  | ObjectEvent
  | Filtering
  | Dispatching
  | Ignoring
deriving DecidableEq, Repr

/-- One dispatched invocation of the published pipeline, carrying the
bound video-path input parameter. -/
structure PipelineInvocation where
  video_path : String
deriving DecidableEq, Repr

/-- The accepted media extension checked by the Logic App workflow. -/
def accepted_extension : String := ".mp4"

/-- The suffix check of the Logic App condition: does the blob name end
with the given extension (checked on the underlying character list). -/
def nameEndsWith (name ext : String) : Bool :=
  ext.data.isSuffixOf name.data

/-- Modelled from the spec and the Logic App workflow described in the
deploy notebook (template.logic_app.json is not under src/): on an
object-created event for a blob, if the blob name ends with .mp4 make
exactly one request to the published pipeline endpoint with the video
path bound to the new blob, otherwise terminate with no request; return
to Idle in both cases.  Returns the dispatched invocations and the final
listener state. -/
def triggerOnBlobAdded (blobName : String) :
    List PipelineInvocation × ListenerState :=
  if nameEndsWith blobName accepted_extension then
    ([{ video_path := blobName }], ListenerState.Idle)
  else
    ([], ListenerState.Idle)

/-- Modelled from the spec: the listener states visited while handling one
object-created event, ending back at Idle. -/
def triggerStateTrace (blobName : String) : List ListenerState :=
  [ListenerState.Idle, ListenerState.ObjectEvent, ListenerState.Filtering,
    if nameEndsWith blobName accepted_extension then ListenerState.Dispatching
    else ListenerState.Ignoring,
    ListenerState.Idle]

/-- C5: for every object-created event, the listener dispatches exactly
one invocation, bound to the new object's path, when the name ends with
.mp4, and dispatches zero invocations when it does not; both paths pass
through Filtering and return to Idle. -/
theorem trigger_dispatch_per_event (blobName : String) :
    (nameEndsWith blobName accepted_extension = true →
      triggerOnBlobAdded blobName
          = ([{ video_path := blobName }], ListenerState.Idle) ∧
        triggerStateTrace blobName
          = [ListenerState.Idle, ListenerState.ObjectEvent,
              ListenerState.Filtering, ListenerState.Dispatching,
              ListenerState.Idle]) ∧
      (nameEndsWith blobName accepted_extension = false →
        triggerOnBlobAdded blobName = ([], ListenerState.Idle) ∧
          triggerStateTrace blobName
            = [ListenerState.Idle, ListenerState.ObjectEvent,
                ListenerState.Filtering, ListenerState.Ignoring,
                ListenerState.Idle]) := by
  constructor
  · intro h
    constructor <;> simp [triggerOnBlobAdded, triggerStateTrace, h]
  · intro h
    constructor <;> simp [triggerOnBlobAdded, triggerStateTrace, h]

/-- The scenario blob names: a qualifying video and a non-qualifying
text file. -/
def clip_blob : String := "clip.mp4"

/-- The non-qualifying scenario blob name. -/
def notes_blob : String := "notes.txt"

/-- Witness: C5 at the scenario blobs clip.mp4 (one invocation, bound to
clip.mp4) and notes.txt (zero invocations). -/
theorem trigger_dispatch_per_event_witness :
    triggerOnBlobAdded clip_blob
        = ([{ video_path := clip_blob }], ListenerState.Idle) ∧
      triggerOnBlobAdded notes_blob = ([], ListenerState.Idle) :=
  ⟨((trigger_dispatch_per_event clip_blob).1 (by decide)).1,
    ((trigger_dispatch_per_event notes_blob).2 (by decide)).1⟩

/-! ## Run status state machine (C8) -/

/-- Scheduler events that drive a run's status. -/
inductive RunEvent where
  | start
  | succeed
  | fail
  | cancel
deriving DecidableEq, Repr

/-- Whether a run status is terminal. -/
def isTerminal : RunStatus → Bool
  | RunStatus.Finished => true
  | RunStatus.Failed => true
  | RunStatus.Canceled => true
  | _ => false

/-- Modelled from the spec: the run status transition function.  A queued
run starts Running; a running run reaches exactly one terminal state; a
terminal state absorbs every further event; no event moves a queued run
directly to a terminal state. -/
def runTransition : RunStatus → RunEvent → RunStatus
  | RunStatus.NotStarted, RunEvent.start => RunStatus.Running
  | RunStatus.NotStarted, _ => RunStatus.NotStarted
  | RunStatus.Running, RunEvent.succeed => RunStatus.Finished
  | RunStatus.Running, RunEvent.fail => RunStatus.Failed
  | RunStatus.Running, RunEvent.cancel => RunStatus.Canceled
  | RunStatus.Running, RunEvent.start => RunStatus.Running
  | s, _ => s

/-- The observable status history of a run driven by a list of scheduler
events, starting from the initial NotStarted status. -/
def runTrace (events : List RunEvent) : List RunStatus :=
  List.scanl runTransition RunStatus.NotStarted events

/-- The final status of a run after a list of scheduler events. -/
def runFinalStatus (events : List RunEvent) : RunStatus :=
  List.foldl runTransition RunStatus.NotStarted events

/-- The declared edges of the run state machine: Queued to Running, and
Running to exactly one of the three terminal states. -/
def legalRunEdge (s t : RunStatus) : Bool :=
  match s, t with
  | RunStatus.NotStarted, RunStatus.Running => true
  | RunStatus.Running, RunStatus.Finished => true
  | RunStatus.Running, RunStatus.Failed => true
  | RunStatus.Running, RunStatus.Canceled => true
  | _, _ => false

lemma scanl_head? (f : β → α → β) (b : β) (l : List α) :
    (List.scanl f b l).head? = some b := by
  cases l <;> simp [List.scanl]

lemma chain'_scanl (f : β → α → β) (P : β → β → Prop)
    (h : ∀ b a, P b (f b a)) (b : β) (l : List α) :
    List.Chain' P (List.scanl f b l) := by
  induction l generalizing b with
  | nil => simp
  | cons a l ih =>
      rw [List.scanl_cons]
      simp only [List.singleton_append]
      rw [List.chain'_cons']
      refine ⟨?_, ih (f b a)⟩
      intro y hy
      rw [scanl_head? f (f b a) l] at hy
      cases hy
      exact h b a

lemma runTransition_step (s : RunStatus) (e : RunEvent) :
    runTransition s e = s ∨ legalRunEdge s (runTransition s e) = true := by
  cases s <;> cases e <;> simp [runTransition, legalRunEdge]

lemma runTransition_terminal (s : RunStatus) (e : RunEvent)
    (h : isTerminal s = true) : runTransition s e = s := by
  cases s <;> simp [isTerminal] at h <;> cases e <;> rfl

lemma terminal_requires_running (events : List RunEvent) (s : RunStatus)
    (h : isTerminal (List.foldl runTransition s events) = true) :
    isTerminal s = true ∨ RunStatus.Running ∈ List.scanl runTransition s events := by
  induction events generalizing s with
  | nil => exact Or.inl h
  | cons e l ih =>
      rw [List.foldl_cons] at h
      rw [List.scanl_cons]
      rcases ih (runTransition s e) h with hterm | hmem
      · cases s with
        | NotStarted => cases e <;> simp [runTransition, isTerminal] at hterm
        | Running => exact Or.inr (by simp)
        | Finished => exact Or.inl rfl
        | Failed => exact Or.inl rfl
        | Canceled => exact Or.inl rfl
      · exact Or.inr (by simp [hmem])

lemma scanl_terminal_replicate (s : RunStatus) (events : List RunEvent)
    (h : isTerminal s = true) :
    List.scanl runTransition s events = List.replicate (events.length + 1) s := by
  induction events with
  | nil => simp [List.scanl]
  | cons e l ih =>
      rw [List.scanl_cons, runTransition_terminal s e h, ih]
      simp [List.replicate_succ]

/-- C8: every run's observable status history follows the declared state
machine: consecutive statuses either repeat or cross a declared edge
(Queued to Running, Running to exactly one terminal state); no state is
skipped (a terminal status is only ever reached after Running was
observed); and a terminal state is never left once entered.  Every status
in the history is drawn from the declared status set by construction of
the RunStatus type. -/
theorem run_status_state_machine (events : List RunEvent) :
    List.Chain' (fun s t => t = s ∨ legalRunEdge s t = true)
        (runTrace events) ∧
      (isTerminal (runFinalStatus events) = true →
        RunStatus.Running ∈ runTrace events) ∧
      (∀ (s : RunStatus) (more : List RunEvent), isTerminal s = true →
        List.scanl runTransition s more
          = List.replicate (more.length + 1) s) := by
  refine ⟨?_, ?_, ?_⟩
  · exact chain'_scanl runTransition _ runTransition_step RunStatus.NotStarted
      events
  · intro h
    rcases terminal_requires_running events RunStatus.NotStarted h with
      hterm | hmem
    · simp [isTerminal] at hterm
    · exact hmem
  · intro s more hs
    exact scanl_terminal_replicate s more hs

/-- Witness: C8 on the event sequence start then succeed, whose history is
NotStarted, Running, Finished; instantiates the no-skip implication and
the terminal-absorption clause at Finished. -/
theorem run_status_state_machine_witness :
    isTerminal (runFinalStatus [RunEvent.start, RunEvent.succeed]) = true ∧
      RunStatus.Running ∈ runTrace [RunEvent.start, RunEvent.succeed] ∧
      isTerminal RunStatus.Finished = true ∧
      List.scanl runTransition RunStatus.Finished [RunEvent.cancel]
        = List.replicate 2 RunStatus.Finished :=
  ⟨by decide,
    (run_status_state_machine [RunEvent.start, RunEvent.succeed]).2.1
      (by decide),
    by decide,
    (run_status_state_machine [RunEvent.start, RunEvent.succeed]).2.2
      RunStatus.Finished [RunEvent.cancel] (by decide)⟩

/-! ## Pipeline graph, cycle check, publish (C6) -/

/-- Does step `s` produce an artifact that step `t` consumes. -/
def producesFor (s t : PipelineStepDef) : Bool :=
  s.outputs.any (fun a => t.inputs.contains a)

/-- The artifact producer/consumer edge between the steps at positions `i`
and `j` of the graph definition. -/
def stepEdgeB (steps : List PipelineStepDef) (i j : Nat) : Bool :=
  match steps[i]?, steps[j]? with
  | some s, some t => producesFor s t
  | _, _ => false

/-- The direct successors of step `i` in the producer/consumer graph. -/
def succsOf (steps : List PipelineStepDef) (i : Nat) : Finset Nat :=
  (Finset.range steps.length).filter (fun j => stepEdgeB steps i j = true)

/-- One saturation round of reachability: keep the set and add every
direct successor of a member. -/
def reachExpand (steps : List PipelineStepDef) (S : Finset Nat) : Finset Nat :=
  S ∪ S.biUnion (succsOf steps)

/-- All steps reachable from `i` along one or more producer/consumer
edges, computed by saturating for more rounds than there are steps. -/
def reachSet (steps : List PipelineStepDef) (i : Nat) : Finset Nat :=
  (reachExpand steps)^[steps.length + 1] (succsOf steps i)

/-- The build-time cycle check: some step reaches itself along
producer/consumer edges. -/
def hasCycle (steps : List PipelineStepDef) : Bool :=
  (List.range steps.length).any (fun i => decide (i ∈ reachSet steps i))

lemma mem_succsOf {steps : List PipelineStepDef} {i j : Nat} :
    j ∈ succsOf steps i ↔ j < steps.length ∧ stepEdgeB steps i j = true := by
  simp [succsOf]

lemma stepEdgeB_lt {steps : List PipelineStepDef} {i j : Nat}
    (h : stepEdgeB steps i j = true) :
    i < steps.length ∧ j < steps.length := by
  unfold stepEdgeB at h
  cases hi : steps[i]? with
  | none => rw [hi] at h; cases h
  | some s =>
      cases hj : steps[j]? with
      | none => rw [hi, hj] at h; cases h
      | some t =>
          exact ⟨List.getElem?_eq_some_iff.mp hi |>.1,
            List.getElem?_eq_some_iff.mp hj |>.1⟩

lemma subset_reachExpand (steps : List PipelineStepDef) (S : Finset Nat) :
    S ⊆ reachExpand steps S :=
  Finset.subset_union_left

lemma succsOf_subset_range (steps : List PipelineStepDef) (i : Nat) :
    succsOf steps i ⊆ Finset.range steps.length :=
  Finset.filter_subset _ _

lemma reachExpand_subset_range (steps : List PipelineStepDef)
    {S : Finset Nat} (hS : S ⊆ Finset.range steps.length) :
    reachExpand steps S ⊆ Finset.range steps.length := by
  unfold reachExpand
  apply Finset.union_subset hS
  intro j hj
  rcases Finset.mem_biUnion.mp hj with ⟨w, _, hw⟩
  exact succsOf_subset_range steps w hw

lemma iterate_reachExpand_subset_range (steps : List PipelineStepDef)
    {S : Finset Nat} (hS : S ⊆ Finset.range steps.length) (k : Nat) :
    (reachExpand steps)^[k] S ⊆ Finset.range steps.length := by
  induction k with
  | zero => exact hS
  | succ k ih =>
      rw [Function.iterate_succ_apply']
      exact reachExpand_subset_range steps ih

lemma subset_iterate_reachExpand (steps : List PipelineStepDef)
    (S : Finset Nat) (k : Nat) :
    S ⊆ (reachExpand steps)^[k] S := by
  induction k with
  | zero => exact le_refl S
  | succ k ih =>
      rw [Function.iterate_succ_apply']
      exact ih.trans (subset_reachExpand steps _)

lemma reachExpand_fixed_iterate (steps : List PipelineStepDef)
    {S : Finset Nat} (h : reachExpand steps S = S) (k : Nat) :
    (reachExpand steps)^[k] S = S := by
  induction k with
  | zero => rfl
  | succ k ih => rw [Function.iterate_succ_apply', ih, h]

lemma reachExpand_progress (steps : List PipelineStepDef)
    (S : Finset Nat) (k : Nat) :
    (∃ j ≤ k, reachExpand steps ((reachExpand steps)^[j] S)
        = (reachExpand steps)^[j] S) ∨
      k ≤ ((reachExpand steps)^[k] S).card := by
  induction k with
  | zero => exact Or.inr (Nat.zero_le _)
  | succ k ih =>
      rcases ih with ⟨j, hj, hfix⟩ | hcard
      · exact Or.inl ⟨j, hj.trans (Nat.le_succ k), hfix⟩
      · by_cases hfix : reachExpand steps ((reachExpand steps)^[k] S)
            = (reachExpand steps)^[k] S
        · exact Or.inl ⟨k, Nat.le_succ k, hfix⟩
        · right
          rw [Function.iterate_succ_apply']
          have hsub : (reachExpand steps)^[k] S
              ⊂ reachExpand steps ((reachExpand steps)^[k] S) :=
            (subset_reachExpand steps _).ssubset_of_ne (Ne.symm hfix)
          have := Finset.card_lt_card hsub
          omega

lemma reachSet_fixed (steps : List PipelineStepDef) (i : Nat) :
    reachExpand steps (reachSet steps i) = reachSet steps i := by
  unfold reachSet
  set n := steps.length with hn
  rcases reachExpand_progress steps (succsOf steps i) (n + 1) with
    ⟨j, hj, hfix⟩ | hcard
  · have hiter : (reachExpand steps)^[n + 1] (succsOf steps i)
        = (reachExpand steps)^[j] (succsOf steps i) := by
      have hsplit : n + 1 = (n + 1 - j) + j := by omega
      rw [hsplit, Function.iterate_add_apply]
      exact reachExpand_fixed_iterate steps hfix (n + 1 - j)
    rw [hiter]
    exact hfix
  · exfalso
    have hle : ((reachExpand steps)^[n + 1] (succsOf steps i)).card ≤ n := by
      have hsub := iterate_reachExpand_subset_range steps
        (succsOf_subset_range steps i) (n + 1)
      calc ((reachExpand steps)^[n + 1] (succsOf steps i)).card
          ≤ (Finset.range n).card := Finset.card_le_card hsub
        _ = n := Finset.card_range n
    omega

lemma reachSet_closed (steps : List PipelineStepDef) {i j w : Nat}
    (hw : w ∈ reachSet steps i) (hj : j ∈ succsOf steps w) :
    j ∈ reachSet steps i := by
  have : j ∈ reachExpand steps (reachSet steps i) := by
    unfold reachExpand
    exact Finset.mem_union_right _ (Finset.mem_biUnion.mpr ⟨w, hw, hj⟩)
  rwa [reachSet_fixed steps i] at this

lemma reachSet_sound (steps : List PipelineStepDef) (i : Nat) (k : Nat) :
    ∀ j ∈ (reachExpand steps)^[k] (succsOf steps i),
      Relation.TransGen (fun a b => stepEdgeB steps a b = true) i j := by
  induction k with
  | zero =>
      intro j hj
      exact Relation.TransGen.single (mem_succsOf.mp hj).2
  | succ k ih =>
      intro j hj
      rw [Function.iterate_succ_apply'] at hj
      unfold reachExpand at hj
      rcases Finset.mem_union.mp hj with hj | hj
      · exact ih j hj
      · rcases Finset.mem_biUnion.mp hj with ⟨w, hw, hjw⟩
        exact Relation.TransGen.tail (ih w hw) (mem_succsOf.mp hjw).2

lemma reachSet_complete (steps : List PipelineStepDef) {i j : Nat}
    (h : Relation.TransGen (fun a b => stepEdgeB steps a b = true) i j) :
    j ∈ reachSet steps i := by
  induction h with
  | single h1 =>
      apply subset_iterate_reachExpand steps (succsOf steps i) _
      exact mem_succsOf.mpr ⟨(stepEdgeB_lt h1).2, h1⟩
  | tail _ hedge ih =>
      exact reachSet_closed steps ih
        (mem_succsOf.mpr ⟨(stepEdgeB_lt hedge).2, hedge⟩)

/-- The computed cycle check agrees with the declarative property: some
step lies on a nonempty producer/consumer cycle. -/
lemma hasCycle_iff (steps : List PipelineStepDef) :
    hasCycle steps = true ↔
      ∃ i, Relation.TransGen (fun a b => stepEdgeB steps a b = true) i i := by
  constructor
  · intro h
    rcases List.any_eq_true.mp h with ⟨i, _, hi⟩
    exact ⟨i, reachSet_sound steps i _ i (of_decide_eq_true hi)⟩
  · rintro ⟨i, hi⟩
    apply List.any_eq_true.mpr
    have hlt : i < steps.length := by
      rcases (Relation.transGen_iff _ _ _).mp hi with h1 | ⟨w, _, h1⟩
      · exact (stepEdgeB_lt h1).1
      · exact (stepEdgeB_lt h1).2
    exact ⟨i, List.mem_range.mpr hlt,
      decide_eq_true (reachSet_complete steps hi)⟩

/-! ## Publish and the invocation gateway (C6, C7) -/

/-- The error taxonomy of the pipeline engine: build-time errors raised at
publish time, and the synchronous rejection reasons of the gateway. -/
inductive PipelineError where
  | CycleDetected
  | UnboundInput
  | Unauthorized
  | MissingParameter
deriving DecidableEq, Repr

/-- A declared run parameter with an optional default value. -/
structure GraphParam where
  name : String
  default : Option String
deriving DecidableEq, Repr

/-- A published graph: the frozen step set and declared parameters. -/
structure PublishedGraph where
  steps : List PipelineStepDef
  params : List GraphParam
deriving DecidableEq, Repr

/-- Modelled from the spec: publishing freezes the graph after the
build-time acyclicity check; a cyclic definition is rejected with
CycleDetected and an acyclic one is frozen.  The check runs at publish
time only. -/
def publish (steps : List PipelineStepDef) (params : List GraphParam) :
    Except PipelineError PublishedGraph :=
  if hasCycle steps then Except.error PipelineError.CycleDetected
  else Except.ok { steps := steps, params := params }

/-- The video_path pipeline parameter declared in the notebook, with
default orangutan.mp4. -/
def video_path_param : GraphParam :=
  { name := "video_path", default := some "orangutan.mp4" }

/-- The parameters of the published pipeline. -/
def pipeline_params : List GraphParam := [video_path_param]

/-- A run submission request as posted to the published endpoint in the
notebook: experiment name, data-path parameter assignments, and the
bearer credential header. -/
structure SubmitRequest where
  experiment_name : String
  assignments : List (String × String)
  auth_token : Option String
deriving DecidableEq, Repr

/-- Is the declared parameter bound by the request, either explicitly or
through its declared default. -/
def paramBound (req : SubmitRequest) (p : GraphParam) : Bool :=
  p.default.isSome || req.assignments.any (fun q => q.1 == p.name)

/-- Modelled from the spec: the Invocation Gateway accepts a run request
synchronously, queueing the run and returning the fresh run id; it
rejects synchronously only on missing/absent credential (Unauthorized) or
an unbindable declared parameter (MissingParameter).  Acyclicity is never
re-checked here. -/
def submitRun (g : PublishedGraph) (req : SubmitRequest) (newRunId : Nat) :
    Except PipelineError Nat :=
  if req.auth_token.isNone then Except.error PipelineError.Unauthorized
  else if g.params.all (fun p => paramBound req p) then Except.ok newRunId
  else Except.error PipelineError.MissingParameter

/-- C6: publish rejects every graph definition containing a cycle among
artifact producer/consumer edges, accepts every acyclic definition, and
the acyclicity check happens only at publish time: a run submission on a
published graph can never fail with a cycle error. -/
theorem publish_checks_acyclicity (steps : List PipelineStepDef)
    (params : List GraphParam) :
    ((∃ i, Relation.TransGen (fun a b => stepEdgeB steps a b = true) i i) →
        publish steps params = Except.error PipelineError.CycleDetected) ∧
      ((¬ ∃ i, Relation.TransGen (fun a b => stepEdgeB steps a b = true) i i) →
        publish steps params
          = Except.ok { steps := steps, params := params }) ∧
      (∀ (g : PublishedGraph) (req : SubmitRequest) (rid : Nat),
        submitRun g req rid ≠ Except.error PipelineError.CycleDetected) := by
  refine ⟨?_, ?_, ?_⟩
  · intro h
    have := (hasCycle_iff steps).mpr h
    simp [publish, this]
  · intro h
    have : hasCycle steps = false := by
      rcases Bool.eq_false_or_eq_true (hasCycle steps) with ht | hf
      · exact absurd ((hasCycle_iff steps).mp ht) h
      · exact hf
    simp [publish, this]
  · intro g req rid
    unfold submitRun
    by_cases h1 : req.auth_token.isNone
    · simp [h1]
    · by_cases h2 : g.params.all (fun p => paramBound req p)
      · simp [h1, h2]
      · simp [h1, h2]

/-- A two-step cyclic graph definition: each step consumes the artifact
the other produces. -/
def cyclic_demo_steps : List PipelineStepDef :=
  [{ name := "A"
     script_name := "a.py"
     inputs := ["y"]
     outputs := ["x"]
     allow_reuse := false },
   { name := "B"
     script_name := "b.py"
     inputs := ["x"]
     outputs := ["y"]
     allow_reuse := false }]

/-- A well-formed request against the published pipeline, as in the
notebook test cell. -/
def demo_request : SubmitRequest :=
  { experiment_name := "My_Pipeline"
    assignments := [("video_path", "orangutan.mp4")]
    auth_token := some "aad-token" }

/-- Witness: C6 on the concrete cyclic two-step graph (rejected), on the
acyclic three-step pipeline of the notebook (accepted), and on a concrete
run submission (never a cycle error). -/
theorem publish_checks_acyclicity_witness :
    publish cyclic_demo_steps [] = Except.error PipelineError.CycleDetected ∧
      publish pipeline_steps pipeline_params
        = Except.ok { steps := pipeline_steps, params := pipeline_params } ∧
      submitRun { steps := pipeline_steps, params := pipeline_params }
          demo_request 7
        ≠ Except.error PipelineError.CycleDetected :=
  ⟨(publish_checks_acyclicity cyclic_demo_steps []).1
      ⟨0, by
        have h01 : stepEdgeB cyclic_demo_steps 0 1 = true := by decide
        have h10 : stepEdgeB cyclic_demo_steps 1 0 = true := by decide
        exact Relation.TransGen.tail (Relation.TransGen.single h01) h10⟩,
    (publish_checks_acyclicity pipeline_steps pipeline_params).2.1
      (fun h => absurd ((hasCycle_iff pipeline_steps).mpr h) (by decide)),
    (publish_checks_acyclicity pipeline_steps pipeline_params).2.2
      { steps := pipeline_steps, params := pipeline_params } demo_request 7⟩

/-- C7: every well-formed authenticated run request returns a run id
synchronously; only a missing credential or an unbindable required
parameter is rejected synchronously.  submitRun takes no account of the
eventual execution outcome, so the id is returned even for runs that
later fail: the final conjunct records that the accepted id is the same
whatever scheduler events later drive the run, including ones ending
Failed. -/
theorem gateway_accepts_and_queues (g : PublishedGraph) (req : SubmitRequest)
    (rid : Nat) :
    (req.auth_token.isSome = true →
      g.params.all (fun p => paramBound req p) = true →
      submitRun g req rid = Except.ok rid) ∧
      (req.auth_token = none →
        submitRun g req rid = Except.error PipelineError.Unauthorized) ∧
      (req.auth_token.isSome = true →
        g.params.all (fun p => paramBound req p) = false →
        submitRun g req rid = Except.error PipelineError.MissingParameter) ∧
      (∀ events : List RunEvent,
        req.auth_token.isSome = true →
        g.params.all (fun p => paramBound req p) = true →
        runFinalStatus events = RunStatus.Failed →
        submitRun g req rid = Except.ok rid) := by
  refine ⟨?_, ?_, ?_, ?_⟩
  · intro h1 h2
    simp [submitRun, Option.isNone_iff_eq_none, h2,
      Option.isSome_iff_ne_none.mp h1]
  · intro h1
    simp [submitRun, h1]
  · intro h1 h2
    simp [submitRun, Option.isNone_iff_eq_none, h2,
      Option.isSome_iff_ne_none.mp h1]
  · intro events h1 h2 _
    simp [submitRun, Option.isNone_iff_eq_none, h2,
      Option.isSome_iff_ne_none.mp h1]

/-- A request with no credential. -/
def unauthenticated_request : SubmitRequest :=
  { experiment_name := "My_Pipeline"
    assignments := [("video_path", "orangutan.mp4")]
    auth_token := none }

/-- A graph with a required parameter that has no default, and a request
that does not bind it. -/
def no_default_graph : PublishedGraph :=
  { steps := pipeline_steps
    params := [{ name := "video_path", default := none }] }

/-- An authenticated request binding no parameters. -/
def empty_assignment_request : SubmitRequest :=
  { experiment_name := "My_Pipeline"
    assignments := []
    auth_token := some "aad-token" }

/-- Witness: C7 on the published pipeline with a well-formed request (a
run id comes back synchronously, also under an eventually failing event
sequence), an unauthenticated request (Unauthorized), and an unbindable
parameter (MissingParameter). -/
theorem gateway_accepts_and_queues_witness :
    submitRun { steps := pipeline_steps, params := pipeline_params }
        demo_request 7 = Except.ok 7 ∧
      submitRun { steps := pipeline_steps, params := pipeline_params }
        unauthenticated_request 8
        = Except.error PipelineError.Unauthorized ∧
      submitRun no_default_graph empty_assignment_request 9
        = Except.error PipelineError.MissingParameter ∧
      runFinalStatus [RunEvent.start, RunEvent.fail] = RunStatus.Failed ∧
      submitRun { steps := pipeline_steps, params := pipeline_params }
        demo_request 7 = Except.ok 7 :=
  ⟨(gateway_accepts_and_queues
        { steps := pipeline_steps, params := pipeline_params }
        demo_request 7).1 (by decide) (by decide),
    (gateway_accepts_and_queues
        { steps := pipeline_steps, params := pipeline_params }
        unauthenticated_request 8).2.1 (by decide),
    (gateway_accepts_and_queues no_default_graph
        empty_assignment_request 9).2.2.1 (by decide) (by decide),
    by decide,
    (gateway_accepts_and_queues
        { steps := pipeline_steps, params := pipeline_params }
        demo_request 7).2.2.2 [RunEvent.start, RunEvent.fail]
      (by decide) (by decide) (by decide)⟩

/-! ## Building the graph from the final step (C9) -/

/-- The names of the steps of a stepSet that produce an input consumed by
some step currently included by name. -/
def producerNames (stepSet : List PipelineStepDef)
    (names : List String) : List String :=
  (stepSet.filter (fun s =>
    stepSet.any (fun t =>
      names.contains t.name && s.outputs.any (fun a => t.inputs.contains a)))).map
    (fun s => s.name)

/-- One round of dependency-closure expansion over step names, kept in
stepSet order. -/
def closureExpand (stepSet : List PipelineStepDef)
    (names : List String) : List String :=
  (stepSet.map (fun s => s.name)).filter (fun nm =>
    names.contains nm || (producerNames stepSet names).contains nm)

/-- Modelled from the spec: Pipeline(steps=...) transitively includes
every step producing an input artifact of an included step; saturating
for as many rounds as there are steps reaches the closure. -/
def depClosure (stepSet : List PipelineStepDef) :
    Nat → List String → List String
  | 0, names => names
  | k + 1, names => depClosure stepSet k (closureExpand stepSet names)

/-- Modelled from the spec: the step set a Pipeline built from the given
root steps instantiates, in stepSet order. -/
def pipelineFromSteps (stepSet : List PipelineStepDef)
    (roots : List String) : List PipelineStepDef :=
  stepSet.filter (fun s =>
    (depClosure stepSet stepSet.length roots).contains s.name)

/-- Does a schedule order respect dependencies: each step's inputs are
external or produced by an earlier step of the order. -/
def scheduleRespectsDeps : List PipelineStepDef → List String → Bool
  | [], _ => true
  | s :: rest, avail =>
      s.inputs.all (fun a => avail.contains a) &&
        scheduleRespectsDeps rest (avail ++ s.outputs)

/-- C9: building the pipeline from only the final step suffices: starting
from postprocess video, the dependency closure instantiates all three
declared steps, and the order preprocess video, mpi style transfer,
postprocess video respects every artifact dependency given the external
inputs video_path and model_dir. -/
theorem pipeline_from_final_step :
    pipelineFromSteps pipeline_steps [postprocess_video_step.name]
        = [preprocess_video_step, distributed_style_transfer_step,
            postprocess_video_step] ∧
      scheduleRespectsDeps pipeline_steps external_inputs = true := by
  constructor
  · rfl
  · rfl

/-! ## Step outputs keyed by step-run id (C10) -/

/-- Modelled from the spec and the notebook download cell: a step run
materializes each of its output files in the datastore under the key
[step-run id, output name, file name] (the notebook downloads with the
step-run id as the key head). -/
def stepOutputKeys (stepRunId : String)
    (outs : List (String × String)) : List (List String) :=
  outs.map (fun p => [stepRunId, p.1, p.2])

/-- Modelled from the notebook my_datastore.download call: downloading
returns exactly the stored keys whose head segment equals the given
step-run id. -/
def datastoreDownload (store : List (List String))
    (stepRunId : String) : List (List String) :=
  store.filter (fun key => key.head? == some stepRunId)

lemma stepOutputKeys_head {stepRunId : String}
    {outs : List (String × String)} {k : List String}
    (h : k ∈ stepOutputKeys stepRunId outs) : k.head? = some stepRunId := by
  rcases List.mem_map.mp h with ⟨p, _, rfl⟩
  rfl

/-- C10: outputs of distinct step-run ids never collide, and downloading
under a given run's postprocess step id retrieves exactly that run's
output files even when the store also holds another run's outputs. -/
theorem step_outputs_keyed_by_run_id (id1 id2 : String)
    (o1 o2 : List (String × String)) (hne : id1 ≠ id2) :
    (∀ k1 ∈ stepOutputKeys id1 o1, ∀ k2 ∈ stepOutputKeys id2 o2,
        k1 ≠ k2) ∧
      datastoreDownload (stepOutputKeys id1 o1 ++ stepOutputKeys id2 o2) id1
        = stepOutputKeys id1 o1 := by
  constructor
  · intro k1 h1 k2 h2 heq
    have e1 := stepOutputKeys_head h1
    have e2 := stepOutputKeys_head h2
    rw [heq, e2] at e1
    exact hne (Option.some.inj e1).symm
  · unfold datastoreDownload
    rw [List.filter_append]
    have hkeep : (stepOutputKeys id1 o1).filter
        (fun key => key.head? == some id1) = stepOutputKeys id1 o1 := by
      apply List.filter_eq_self.mpr
      intro k hk
      rw [stepOutputKeys_head hk]
      simp
    have hdrop : (stepOutputKeys id2 o2).filter
        (fun key => key.head? == some id1) = [] := by
      apply List.filter_eq_nil_iff.mpr
      intro k hk
      rw [stepOutputKeys_head hk]
      simp
      exact fun h => hne h.symm
    rw [hkeep, hdrop, List.append_nil]

/-- The postprocess step-run id observed in the notebook download cell. -/
def observed_step_id : String :=
  "304146d1ea9c445c978ab8c55800759a_7cc17697_1-30-2019_07-39-13_AM"

/-- Another run's step id. -/
def other_step_id : String := "other_run_step_id"

/-- The output file written by the postprocess step, as displayed in the
notebook: output_video/video_processed.mp4. -/
def postprocess_outputs : List (String × String) :=
  [("output_video", "video_processed.mp4")]

/-- Witness: C10 at the concrete step-run id from the notebook against a
different run id holding the same output layout. -/
theorem step_outputs_keyed_by_run_id_witness :
    observed_step_id ≠ other_step_id ∧
      datastoreDownload
          (stepOutputKeys observed_step_id postprocess_outputs ++
            stepOutputKeys other_step_id postprocess_outputs)
          observed_step_id
        = stepOutputKeys observed_step_id postprocess_outputs :=
  ⟨by decide,
    (step_outputs_keyed_by_run_id observed_step_id other_step_id
      postprocess_outputs postprocess_outputs (by decide)).2⟩
